import Mathlib

/-
Shallow embedding of `src/run_DOC_calculation.py` (RWTH-EBC/Demand_Overlap_Coefficient).

Demand time series are modelled as `List ℚ` (exact rationals in place of floats).
Python indexing `xs[k]` is modelled by `xs[k]?` (`getElem?`): a `none` is an
IndexError.  The unchecked float division at the end of each DOC function is
modelled explicitly: a zero denominator is reported as `DOCError.divByZero`
(the Python reference silently produces NaN for numpy floats, or raises
ZeroDivisionError for plain floats; either way no number is meaningfully
returned, and the embedding records that the division was degenerate).
`np.min([a, b])` on two scalars is `min a b`; `np.min([xs, ys], 0)` on two
equal-length arrays is the elementwise minimum `List.zipWith min xs ys`.
-/

namespace DOC

/-- Failure outcomes of the Python reference: an out-of-range index
(IndexError), or reaching the final division with a zero denominator. -/
inductive DOCError where
  | indexError
  | divByZero
  deriving DecidableEq, Repr

/-- Embeds `sum(f(heat_dem[k], cool_dem[k]) for k in range(n))`:
sums `f heat[k] cool[k]` over `k = 0, …, n-1`, `none` if any index is out of
range. -/
def idxSumN (f : ℚ → ℚ → ℚ) (heat cool : List ℚ) : Nat → Option ℚ
  | 0 => some 0
  | n + 1 => do
      let s ← idxSumN f heat cool n
      let a ← heat[n]?
      let b ← cool[n]?
      pure (s + f a b)

/-- Embeds `calc_DOC` (src/run_DOC_calculation.py, lines 25-54):
`t_steps = range(len(heat_dem))`;
`counter = sum(2 * np.min([heat_dem[k], cool_dem[k]]) for k in t_steps)`;
`denominator = sum(heat_dem[k] + cool_dem[k] for k in t_steps)`;
`return counter / denominator`. -/
def calc_DOC (heat_dem cool_dem : List ℚ) : Except DOCError ℚ :=
  match idxSumN (fun a b => 2 * min a b) heat_dem cool_dem heat_dem.length with
  | none => .error .indexError
  | some counter =>
    match idxSumN (fun a b => a + b) heat_dem cool_dem heat_dem.length with
    | none => .error .indexError
    | some denominator =>
      if denominator = 0 then .error .divByZero
      else .ok (counter / denominator)

/-- Embeds `sum(L[b][t] for b in range(n))`: sums column `t` over the first
`n` rows of `L`, `none` if any index is out of range. -/
def colSumN (L : List (List ℚ)) (t : Nat) : Nat → Option ℚ
  | 0 => some 0
  | n + 1 => do
      let s ← colSumN L t n
      let row ← L[n]?
      let x ← row[t]?
      pure (s + x)

/-- Embeds `sum(np.min([heat_dem_list[b][t], cool_dem_list[b][t]], 0) for b in
range(n))`: sums the pairwise minima of column `t` over the first `n` rows. -/
def minColSumN (hL cL : List (List ℚ)) (t : Nat) : Nat → Option ℚ
  | 0 => some 0
  | n + 1 => do
      let s ← minColSumN hL cL t n
      let hrow ← hL[n]?
      let a ← hrow[t]?
      let crow ← cL[n]?
      let b ← crow[t]?
      pure (s + min a b)

/-- Embeds `sum(g(t) for t in range(T))` for a fallible per-time-step term. -/
def tSum (g : Nat → Option ℚ) : Nat → Option ℚ
  | 0 => some 0
  | n + 1 => do
      let s ← tSum g n
      let x ← g n
      pure (s + x)

/-- Embeds `calc_mean_BES_DOC` (src/run_DOC_calculation.py, lines 57-92):
`t_steps = range(len(heat_dem_list[0]))`; `bldgs = range(len(heat_dem_list))`;
`counter = 2 * sum(sum(np.min([heat[b][t], cool[b][t]], 0) for b in bldgs) for t in t_steps)`;
`denominator = sum(sum(heat[b][t] for b in bldgs) + sum(cool[b][t] for b in bldgs) for t in t_steps)`;
`return counter / denominator`. -/
def calc_mean_BES_DOC (heat_dem_list cool_dem_list : List (List ℚ)) :
    Except DOCError ℚ :=
  match heat_dem_list[0]? with
  | none => .error .indexError
  | some first =>
    let T := first.length
    let B := heat_dem_list.length
    match tSum (fun t => minColSumN heat_dem_list cool_dem_list t B) T with
    | none => .error .indexError
    | some s =>
      let counter := 2 * s
      match tSum (fun t => do
          let hs ← colSumN heat_dem_list t B
          let cs ← colSumN cool_dem_list t B
          pure (hs + cs)) T with
      | none => .error .indexError
      | some denominator =>
        if denominator = 0 then .error .divByZero
        else .ok (counter / denominator)

/-- Embeds `calc_Network_DOC` (src/run_DOC_calculation.py, lines 95-126):
`t_steps = range(len(heat_dem_list[0]))`; `bldgs = range(len(heat_dem_list))`;
`counter = 2 * sum(np.min([sum(heat[b][t] for b in bldgs), sum(cool[b][t] for b in bldgs)], 0) for t in t_steps)`;
`denominator = sum(sum(heat[b][t] for b in bldgs) + sum(cool[b][t] for b in bldgs) for t in t_steps)`;
`return counter / denominator`. -/
def calc_Network_DOC (heat_dem_list cool_dem_list : List (List ℚ)) :
    Except DOCError ℚ :=
  match heat_dem_list[0]? with
  | none => .error .indexError
  | some first =>
    let T := first.length
    let B := heat_dem_list.length
    match tSum (fun t => do
        let hs ← colSumN heat_dem_list t B
        let cs ← colSumN cool_dem_list t B
        pure (min hs cs)) T with
    | none => .error .indexError
    | some s =>
      let counter := 2 * s
      match tSum (fun t => do
          let hs ← colSumN heat_dem_list t B
          let cs ← colSumN cool_dem_list t B
          pure (hs + cs)) T with
      | none => .error .indexError
      | some denominator =>
        if denominator = 0 then .error .divByZero
        else .ok (counter / denominator)

/-- Embeds the net-demand computation of `__main__` (lines 188-196, Eqs. 9,
13, 14): `bal = np.min([heat, cold], 0)`; `net_heat = heat - bal`;
`net_cold = cold - bal` (elementwise over equal-length arrays). -/
def balance_transform (heat cool : List ℚ) : List ℚ × List ℚ :=
  let bal := List.zipWith min heat cool
  (List.zipWith (fun a m => a - m) heat bal,
   List.zipWith (fun b m => b - m) cool bal)

/-- Closed-form numerator of `calc_DOC` (twice the sum of pointwise minima
over the indices of `heat`). -/
def docCounter (heat cool : List ℚ) : ℚ :=
  2 * ∑ k in Finset.range heat.length, min (heat.getD k 0) (cool.getD k 0)

/-- Closed-form denominator of `calc_DOC` (total demand over the indices of
`heat`). -/
def docDenom (heat cool : List ℚ) : ℚ :=
  ∑ k in Finset.range heat.length, (heat.getD k 0 + cool.getD k 0)

/-- Closed-form column sum `Σ_b L[b][t]` over the first `n` rows. -/
def colSum (L : List (List ℚ)) (n t : Nat) : ℚ :=
  ∑ b in Finset.range n, (L.getD b []).getD t 0

/-- Closed-form numerator of `calc_Network_DOC`: minimum taken after summing
across entities at each time step. -/
def netCounter (hL cL : List (List ℚ)) (B T : Nat) : ℚ :=
  2 * ∑ t in Finset.range T, min (colSum hL B t) (colSum cL B t)

/-- Closed-form numerator of `calc_mean_BES_DOC`: minimum taken per entity
per time step before summing. -/
def meanCounter (hL cL : List (List ℚ)) (B T : Nat) : ℚ :=
  2 * ∑ t in Finset.range T,
        ∑ b in Finset.range B, min ((hL.getD b []).getD t 0) ((cL.getD b []).getD t 0)

/-- Closed-form shared denominator of the two multi-entity DOC functions. -/
def listDenom (hL cL : List (List ℚ)) (B T : Nat) : ℚ :=
  ∑ t in Finset.range T, (colSum hL B t + colSum cL B t)

/-- When both lists cover the index range, the fallible index sum succeeds and
equals the corresponding `Finset.range` sum. -/
theorem idxSumN_eq (f : ℚ → ℚ → ℚ) (heat cool : List ℚ) (n : Nat)
    (hh : n ≤ heat.length) (hc : n ≤ cool.length) :
    idxSumN f heat cool n =
      some (∑ k in Finset.range n, f (heat.getD k 0) (cool.getD k 0)) := by
  induction n with
  | zero => simp [idxSumN]
  | succ n ih =>
      have hh' : n < heat.length := Nat.lt_of_lt_of_le (Nat.lt_succ_self n) hh
      have hc' : n < cool.length := Nat.lt_of_lt_of_le (Nat.lt_succ_self n) hc
      rw [idxSumN, ih (Nat.le_of_succ_le hh) (Nat.le_of_succ_le hc)]
      simp [List.getElem?_eq_getElem hh', List.getElem?_eq_getElem hc',
        Finset.sum_range_succ, List.getD_eq_getElem _ _ hh',
        List.getD_eq_getElem _ _ hc']

/-- When `cool` is too short for the index range, the fallible index sum hits
an IndexError. -/
theorem idxSumN_none (f : ℚ → ℚ → ℚ) (heat cool : List ℚ) (n : Nat)
    (hc : cool.length < n) (hh : n ≤ heat.length) :
    idxSumN f heat cool n = none := by
  induction n with
  | zero => exact absurd hc (Nat.not_lt_zero _)
  | succ n ih =>
      rcases Nat.lt_or_ge cool.length n with h | h
      · rw [idxSumN, ih h (Nat.le_of_succ_le hh)]
        rfl
      · have hcn : cool.length = n := Nat.le_antisymm (Nat.lt_succ_iff.mp hc) h
        rw [idxSumN, idxSumN_eq f heat cool n (Nat.le_of_succ_le hh) (Nat.le_of_eq hcn.symm)]
        have : cool[n]? = none := by
          rw [List.getElem?_eq_none_iff]
          exact Nat.le_of_eq hcn
        simp [this, List.getElem?_eq_getElem (Nat.lt_of_lt_of_le (Nat.lt_succ_self n) hh)]

/-- Characterization of `calc_DOC` when `cool_dem` covers the index range of
`heat_dem`: the result is the closed-form ratio, or a degenerate division. -/
theorem calc_DOC_eq (heat cool : List ℚ) (h : heat.length ≤ cool.length) :
    calc_DOC heat cool =
      if docDenom heat cool = 0 then .error .divByZero
      else .ok (docCounter heat cool / docDenom heat cool) := by
  unfold calc_DOC
  rw [idxSumN_eq _ _ _ _ le_rfl h, idxSumN_eq _ _ _ _ le_rfl h]
  simp only [docCounter, docDenom, Finset.mul_sum]

/-- `calc_DOC` hits an IndexError exactly when `cool_dem` is shorter than
`heat_dem`. -/
theorem calc_DOC_indexError (heat cool : List ℚ) (h : cool.length < heat.length) :
    calc_DOC heat cool = .error .indexError := by
  unfold calc_DOC
  rw [idxSumN_none _ _ _ _ h le_rfl]

/-- When the first `n` rows exist and all have column `t`, the fallible column
sum succeeds and equals the closed-form column sum. -/
theorem colSumN_eq (L : List (List ℚ)) (t n : Nat) (hn : n ≤ L.length)
    (ht : ∀ row ∈ L, t < row.length) :
    colSumN L t n = some (colSum L n t) := by
  induction n with
  | zero => simp [colSumN, colSum]
  | succ n ih =>
      have hn' : n < L.length := Nat.lt_of_lt_of_le (Nat.lt_succ_self n) hn
      have hrow : L[n] ∈ L := List.getElem_mem hn'
      have htn : t < (L[n]).length := ht _ hrow
      rw [colSumN, ih (Nat.le_of_succ_le hn)]
      simp [colSum, List.getElem?_eq_getElem hn', List.getElem?_eq_getElem htn,
        Finset.sum_range_succ, List.getD_eq_getElem _ _ hn',
        List.getD_eq_getElem _ _ htn]

/-- When the first `n` rows of both matrices exist and all have column `t`,
the fallible pairwise-minimum column sum succeeds and equals its closed
form. -/
theorem minColSumN_eq (hL cL : List (List ℚ)) (t n : Nat)
    (hn : n ≤ hL.length) (cn : n ≤ cL.length)
    (ht : ∀ row ∈ hL, t < row.length) (ct : ∀ row ∈ cL, t < row.length) :
    minColSumN hL cL t n =
      some (∑ b in Finset.range n,
        min ((hL.getD b []).getD t 0) ((cL.getD b []).getD t 0)) := by
  induction n with
  | zero => simp [minColSumN]
  | succ n ih =>
      have hn' : n < hL.length := Nat.lt_of_lt_of_le (Nat.lt_succ_self n) hn
      have cn' : n < cL.length := Nat.lt_of_lt_of_le (Nat.lt_succ_self n) cn
      have htn : t < (hL[n]).length := ht _ (List.getElem_mem hn')
      have ctn : t < (cL[n]).length := ct _ (List.getElem_mem cn')
      rw [minColSumN, ih (Nat.le_of_succ_le hn) (Nat.le_of_succ_le cn)]
      simp [List.getElem?_eq_getElem hn', List.getElem?_eq_getElem cn',
        List.getElem?_eq_getElem htn, List.getElem?_eq_getElem ctn,
        Finset.sum_range_succ, List.getD_eq_getElem _ _ hn',
        List.getD_eq_getElem _ _ cn', List.getD_eq_getElem _ _ htn,
        List.getD_eq_getElem _ _ ctn]

/-- When every per-time-step term succeeds, the fallible time sum succeeds
and equals the corresponding `Finset.range` sum. -/
theorem tSum_eq (g : Nat → Option ℚ) (v : Nat → ℚ) (T : Nat)
    (h : ∀ t, t < T → g t = some (v t)) :
    tSum g T = some (∑ t in Finset.range T, v t) := by
  induction T with
  | zero => simp [tSum]
  | succ T ih =>
      rw [tSum, ih (fun t ht => h t (Nat.lt_succ_of_lt ht)),
        h T (Nat.lt_succ_self T)]
      simp [Finset.sum_range_succ]

/-- Characterization of `calc_Network_DOC` for well-shaped input: `hL`
non-empty, `cL` at least as many rows, and every series of length `T`. -/
theorem calc_Network_DOC_eq (hL cL : List (List ℚ)) (T : Nat)
    (hne : hL ≠ []) (hlen : hL.length ≤ cL.length)
    (hT : ∀ row ∈ hL, row.length = T) (cT : ∀ row ∈ cL, row.length = T) :
    calc_Network_DOC hL cL =
      if listDenom hL cL hL.length T = 0 then .error .divByZero
      else .ok (netCounter hL cL hL.length T / listDenom hL cL hL.length T) := by
  have h0 : 0 < hL.length := List.length_pos.mpr hne
  have hfirst : hL[0]? = some (hL[0]) := List.getElem?_eq_getElem h0
  have hT0 : (hL[0]).length = T := hT _ (List.getElem_mem h0)
  have hcnt : tSum (fun t => do
      let hs ← colSumN hL t hL.length
      let cs ← colSumN cL t hL.length
      pure (min hs cs)) T =
      some (∑ t in Finset.range T,
        min (colSum hL hL.length t) (colSum cL hL.length t)) := by
    apply tSum_eq
    intro t ht
    rw [colSumN_eq hL t hL.length le_rfl
          (fun row hr => by rw [hT row hr]; exact ht),
        colSumN_eq cL t hL.length hlen
          (fun row hr => by rw [cT row hr]; exact ht)]
    rfl
  have hden : tSum (fun t => do
      let hs ← colSumN hL t hL.length
      let cs ← colSumN cL t hL.length
      pure (hs + cs)) T =
      some (∑ t in Finset.range T,
        (colSum hL hL.length t + colSum cL hL.length t)) := by
    apply tSum_eq
    intro t ht
    rw [colSumN_eq hL t hL.length le_rfl
          (fun row hr => by rw [hT row hr]; exact ht),
        colSumN_eq cL t hL.length hlen
          (fun row hr => by rw [cT row hr]; exact ht)]
    rfl
  unfold calc_Network_DOC
  rw [hfirst]
  dsimp only
  rw [hT0, hcnt, hden]
  simp only [netCounter, listDenom]

/-- Characterization of `calc_mean_BES_DOC` for well-shaped input: `hL`
non-empty, `cL` at least as many rows, and every series of length `T`. -/
theorem calc_mean_BES_DOC_eq (hL cL : List (List ℚ)) (T : Nat)
    (hne : hL ≠ []) (hlen : hL.length ≤ cL.length)
    (hT : ∀ row ∈ hL, row.length = T) (cT : ∀ row ∈ cL, row.length = T) :
    calc_mean_BES_DOC hL cL =
      if listDenom hL cL hL.length T = 0 then .error .divByZero
      else .ok (meanCounter hL cL hL.length T / listDenom hL cL hL.length T) := by
  have h0 : 0 < hL.length := List.length_pos.mpr hne
  have hfirst : hL[0]? = some (hL[0]) := List.getElem?_eq_getElem h0
  have hT0 : (hL[0]).length = T := hT _ (List.getElem_mem h0)
  have hcnt : tSum (fun t => minColSumN hL cL t hL.length) T =
      some (∑ t in Finset.range T,
        ∑ b in Finset.range hL.length,
          min ((hL.getD b []).getD t 0) ((cL.getD b []).getD t 0)) := by
    apply tSum_eq
    intro t ht
    exact minColSumN_eq hL cL t hL.length le_rfl hlen
      (fun row hr => by rw [hT row hr]; exact ht)
      (fun row hr => by rw [cT row hr]; exact ht)
  have hden : tSum (fun t => do
      let hs ← colSumN hL t hL.length
      let cs ← colSumN cL t hL.length
      pure (hs + cs)) T =
      some (∑ t in Finset.range T,
        (colSum hL hL.length t + colSum cL hL.length t)) := by
    apply tSum_eq
    intro t ht
    rw [colSumN_eq hL t hL.length le_rfl
          (fun row hr => by rw [hT row hr]; exact ht),
        colSumN_eq cL t hL.length hlen
          (fun row hr => by rw [cT row hr]; exact ht)]
    rfl
  unfold calc_mean_BES_DOC
  rw [hfirst]
  dsimp only
  rw [hT0, hcnt, hden]
  simp only [meanCounter, listDenom]

/-- Pointwise bound behind every DOC bound: twice a minimum never exceeds the
sum. -/
theorem two_min_le (a b : ℚ) : 2 * min a b ≤ a + b := by
  rcases le_total a b with h | h
  · rw [min_eq_left h]; linarith
  · rw [min_eq_right h]; linarith

/-- Equality in `two_min_le` forces the two scalars to coincide. -/
theorem eq_of_two_min_eq (a b : ℚ) (h : 2 * min a b = a + b) : a = b := by
  rcases le_total a b with h' | h'
  · rw [min_eq_left h'] at h; linarith
  · rw [min_eq_right h'] at h; linarith

/-- Membership form of `getD` inside the index range. -/
theorem getD_mem_of_lt (l : List ℚ) (k : Nat) (hk : k < l.length) :
    l.getD k 0 ∈ l := by
  rw [List.getD_eq_getElem l 0 hk]
  exact List.getElem_mem hk

/-- C1: for equal-length series with non-negative entries and non-zero total
demand, `calc_DOC` returns exactly `(2 * Σ_t min(heat[t], cool[t])) /
(Σ_t (heat[t] + cool[t]))`; in particular `calc_DOC [2,2] [2,2] = 1` and
`calc_DOC [2,2] [0,0] = 0`. -/
theorem C1_calc_DOC_formula :
    (∀ heat cool : List ℚ, heat.length = cool.length →
      (∀ x ∈ heat, 0 ≤ x) → (∀ x ∈ cool, 0 ≤ x) →
      docDenom heat cool ≠ 0 →
      calc_DOC heat cool = .ok
        ((2 * ∑ k in Finset.range heat.length,
            min (heat.getD k 0) (cool.getD k 0)) /
          ∑ k in Finset.range heat.length, (heat.getD k 0 + cool.getD k 0)))
    ∧ calc_DOC [2, 2] [2, 2] = .ok 1 ∧ calc_DOC [2, 2] [0, 0] = .ok 0 := by
  refine ⟨?_, ?_, ?_⟩
  · intro heat cool hlen _ _ hden
    rw [calc_DOC_eq heat cool (le_of_eq hlen), if_neg hden]
    rfl
  · rw [calc_DOC_eq [2, 2] [2, 2] le_rfl]
    norm_num [docDenom, docCounter, Finset.sum_range_succ]
  · rw [calc_DOC_eq [2, 2] [0, 0] (by norm_num)]
    norm_num [docDenom, docCounter, Finset.sum_range_succ]

/-- Witness for C1 at `heat = [1,3]`, `cool = [2,1]`. -/
theorem C1_witness :
    calc_DOC [1, 3] [2, 1] = .ok
      ((2 * ∑ k in Finset.range ([1, 3] : List ℚ).length,
          min (([1, 3] : List ℚ).getD k 0) (([2, 1] : List ℚ).getD k 0)) /
        ∑ k in Finset.range ([1, 3] : List ℚ).length,
          (([1, 3] : List ℚ).getD k 0 + ([2, 1] : List ℚ).getD k 0)) :=
  C1_calc_DOC_formula.1 [1, 3] [2, 1] rfl (by norm_num) (by norm_num)
    (by norm_num [docDenom, Finset.sum_range_succ])

/-- For non-negative equal-length series that are not both identically zero,
the `calc_DOC` denominator (total demand) is positive. -/
theorem docDenom_pos (heat cool : List ℚ) (hlen : heat.length = cool.length)
    (hh : ∀ x ∈ heat, 0 ≤ x) (hc : ∀ x ∈ cool, 0 ≤ x)
    (hnz : ¬((∀ x ∈ heat, x = 0) ∧ (∀ x ∈ cool, x = 0))) :
    0 < docDenom heat cool := by
  have hhk : ∀ k, k < heat.length → 0 ≤ heat.getD k 0 :=
    fun k hk => hh _ (getD_mem_of_lt heat k hk)
  have hck : ∀ k, k < heat.length → 0 ≤ cool.getD k 0 :=
    fun k hk => hc _ (getD_mem_of_lt cool k (hlen ▸ hk))
  have hterm : ∀ k ∈ Finset.range heat.length,
      0 ≤ heat.getD k 0 + cool.getD k 0 := by
    intro k hk
    have h1 := hhk k (Finset.mem_range.mp hk)
    have h2 := hck k (Finset.mem_range.mp hk)
    linarith
  apply Finset.sum_pos' hterm
  rcases not_and_or.mp hnz with h | h
  · push_neg at h
    obtain ⟨x, hx, hxne⟩ := h
    obtain ⟨k, hk, hkx⟩ := List.mem_iff_getElem.mp hx
    refine ⟨k, Finset.mem_range.mpr hk, ?_⟩
    have hx0 : 0 < x := lt_of_le_of_ne (hh x hx) (Ne.symm hxne)
    have hgd : heat.getD k 0 = x := by
      rw [List.getD_eq_getElem heat 0 hk]; exact hkx
    have := hck k hk
    rw [hgd]
    linarith
  · push_neg at h
    obtain ⟨x, hx, hxne⟩ := h
    obtain ⟨k, hk, hkx⟩ := List.mem_iff_getElem.mp hx
    have hk' : k < heat.length := by rw [hlen]; exact hk
    refine ⟨k, Finset.mem_range.mpr hk', ?_⟩
    have hx0 : 0 < x := lt_of_le_of_ne (hc x hx) (Ne.symm hxne)
    have hgd : cool.getD k 0 = x := by
      rw [List.getD_eq_getElem cool 0 hk]; exact hkx
    have := hhk k hk'
    rw [hgd]
    linarith

/-- C5: for non-negative equal-length series not both identically zero,
`calc_DOC` returns a value `q` with `0 ≤ q ≤ 1`; `q = 1` iff the two series
are equal, and `q = 0` iff the pointwise minimum vanishes at every step. -/
theorem C5_calc_DOC_range (heat cool : List ℚ)
    (hlen : heat.length = cool.length)
    (hh : ∀ x ∈ heat, 0 ≤ x) (hc : ∀ x ∈ cool, 0 ≤ x)
    (hnz : ¬((∀ x ∈ heat, x = 0) ∧ (∀ x ∈ cool, x = 0))) :
    ∃ q, calc_DOC heat cool = .ok q ∧ 0 ≤ q ∧ q ≤ 1 ∧
      (q = 1 ↔ heat = cool) ∧
      (q = 0 ↔ ∀ k, k < heat.length →
        min (heat.getD k 0) (cool.getD k 0) = 0) := by
  have hhk : ∀ k, k < heat.length → 0 ≤ heat.getD k 0 :=
    fun k hk => hh _ (getD_mem_of_lt heat k hk)
  have hck : ∀ k, k < heat.length → 0 ≤ cool.getD k 0 :=
    fun k hk => hc _ (getD_mem_of_lt cool k (hlen ▸ hk))
  have hD : 0 < docDenom heat cool := docDenom_pos heat cool hlen hh hc hnz
  have hDne : docDenom heat cool ≠ 0 := ne_of_gt hD
  refine ⟨docCounter heat cool / docDenom heat cool, ?_, ?_, ?_, ?_, ?_⟩
  · rw [calc_DOC_eq heat cool (le_of_eq hlen), if_neg hDne]
  · apply div_nonneg _ (le_of_lt hD)
    unfold docCounter
    have : 0 ≤ ∑ k in Finset.range heat.length,
        min (heat.getD k 0) (cool.getD k 0) :=
      Finset.sum_nonneg fun k hk =>
        le_min (hhk k (Finset.mem_range.mp hk)) (hck k (Finset.mem_range.mp hk))
    linarith
  · rw [div_le_one hD]
    unfold docCounter docDenom
    rw [Finset.mul_sum]
    exact Finset.sum_le_sum fun k _ => two_min_le _ _
  · rw [div_eq_one_iff_eq hDne]
    constructor
    · intro hCD
      unfold docCounter docDenom at hCD
      rw [Finset.mul_sum] at hCD
      have hsum : ∑ k in Finset.range heat.length,
          ((heat.getD k 0 + cool.getD k 0) -
            2 * min (heat.getD k 0) (cool.getD k 0)) = 0 := by
        rw [Finset.sum_sub_distrib, hCD, sub_self]
      have hzero := (Finset.sum_eq_zero_iff_of_nonneg
        (fun k _ => by linarith [two_min_le (heat.getD k 0) (cool.getD k 0)])).mp hsum
      apply List.ext_getElem hlen
      intro k h1 h2
      have hk0 := hzero k (Finset.mem_range.mpr h1)
      have heqk := eq_of_two_min_eq (heat.getD k 0) (cool.getD k 0) (by linarith)
      rwa [List.getD_eq_getElem heat 0 h1, List.getD_eq_getElem cool 0 h2] at heqk
    · intro heq
      subst heq
      simp [docCounter, docDenom, Finset.mul_sum, two_mul]
  · rw [div_eq_zero_iff]
    constructor
    · rintro (h0 | h0)
      · unfold docCounter at h0
        have h0' : ∑ k in Finset.range heat.length,
            min (heat.getD k 0) (cool.getD k 0) = 0 := by linarith
        have hall := (Finset.sum_eq_zero_iff_of_nonneg
          (fun k hk => le_min (hhk k (Finset.mem_range.mp hk))
            (hck k (Finset.mem_range.mp hk)))).mp h0'
        exact fun k hk => hall k (Finset.mem_range.mpr hk)
      · exact absurd h0 hDne
    · intro hmin
      left
      unfold docCounter
      rw [Finset.sum_congr rfl (fun k hk => hmin k (Finset.mem_range.mp hk))]
      simp

/-- Witness for C5 at `heat = [3,1]`, `cool = [1,2]`. -/
theorem C5_witness :
    ∃ q, calc_DOC [3, 1] [1, 2] = .ok q ∧ 0 ≤ q ∧ q ≤ 1 ∧
      (q = 1 ↔ ([3, 1] : List ℚ) = [1, 2]) ∧
      (q = 0 ↔ ∀ k, k < ([3, 1] : List ℚ).length →
        min (([3, 1] : List ℚ).getD k 0) (([1, 2] : List ℚ).getD k 0) = 0) :=
  C5_calc_DOC_range [3, 1] [1, 2] rfl (by norm_num) (by norm_num) (by norm_num)

/-- C2: for a well-shaped non-empty collection with non-negative entries and
non-zero total demand, `calc_Network_DOC` returns exactly
`(2 * Σ_t min(Σ_e heat[e][t], Σ_e cool[e][t])) / (Σ_t Σ_e (heat[e][t] + cool[e][t]))`:
the minimum is taken after summing across entities at each time step. -/
theorem C2_calc_Network_DOC_formula (hL cL : List (List ℚ)) (T : Nat)
    (hne : hL ≠ []) (hlen : hL.length = cL.length)
    (hT : ∀ row ∈ hL, row.length = T) (cT : ∀ row ∈ cL, row.length = T)
    ( _hpos : ∀ row ∈ hL, ∀ x ∈ row, 0 ≤ x)
    ( _cpos : ∀ row ∈ cL, ∀ x ∈ row, 0 ≤ x)
    (hden : listDenom hL cL hL.length T ≠ 0) :
    calc_Network_DOC hL cL = .ok
      ((2 * ∑ t in Finset.range T,
          min (∑ b in Finset.range hL.length, (hL.getD b []).getD t 0)
            (∑ b in Finset.range hL.length, (cL.getD b []).getD t 0)) /
        ∑ t in Finset.range T,
          (∑ b in Finset.range hL.length, (hL.getD b []).getD t 0 +
            ∑ b in Finset.range hL.length, (cL.getD b []).getD t 0)) := by
  rw [calc_Network_DOC_eq hL cL T hne (le_of_eq hlen) hT cT, if_neg hden]
  rfl

/-- Witness for C2 at `hL = [[1,2]]`, `cL = [[2,1]]`, `T = 2`. -/
theorem C2_witness :
    calc_Network_DOC [[1, 2]] [[2, 1]] = .ok
      ((2 * ∑ t in Finset.range 2,
          min (∑ b in Finset.range ([[1, 2]] : List (List ℚ)).length,
              (([[1, 2]] : List (List ℚ)).getD b []).getD t 0)
            (∑ b in Finset.range ([[1, 2]] : List (List ℚ)).length,
              (([[2, 1]] : List (List ℚ)).getD b []).getD t 0)) /
        ∑ t in Finset.range 2,
          (∑ b in Finset.range ([[1, 2]] : List (List ℚ)).length,
              (([[1, 2]] : List (List ℚ)).getD b []).getD t 0 +
            ∑ b in Finset.range ([[1, 2]] : List (List ℚ)).length,
              (([[2, 1]] : List (List ℚ)).getD b []).getD t 0)) :=
  C2_calc_Network_DOC_formula [[1, 2]] [[2, 1]] 2 (by simp) rfl
    (by norm_num) (by norm_num) (by norm_num) (by norm_num)
    (by norm_num [listDenom, colSum, Finset.sum_range_succ])

/-- C3: for a well-shaped non-empty collection with non-negative entries and
non-zero total demand, `calc_mean_BES_DOC` returns exactly
`(2 * Σ_t Σ_e min(heat[e][t], cool[e][t])) / (Σ_t Σ_e (heat[e][t] + cool[e][t]))`
(minimum per entity per time step before summing); in particular for entity A
`heat=[1,0], cool=[0,1]` and entity B `heat=[0,1], cool=[1,0]` the mean BES
DOC is `0` while the network DOC is `1`. -/
theorem C3_calc_mean_BES_DOC_formula :
    (∀ (hL cL : List (List ℚ)) (T : Nat), hL ≠ [] → hL.length = cL.length →
      (∀ row ∈ hL, row.length = T) → (∀ row ∈ cL, row.length = T) →
      (∀ row ∈ hL, ∀ x ∈ row, 0 ≤ x) → (∀ row ∈ cL, ∀ x ∈ row, 0 ≤ x) →
      listDenom hL cL hL.length T ≠ 0 →
      calc_mean_BES_DOC hL cL = .ok
        ((2 * ∑ t in Finset.range T,
            ∑ b in Finset.range hL.length,
              min ((hL.getD b []).getD t 0) ((cL.getD b []).getD t 0)) /
          ∑ t in Finset.range T,
            (∑ b in Finset.range hL.length, (hL.getD b []).getD t 0 +
              ∑ b in Finset.range hL.length, (cL.getD b []).getD t 0)))
    ∧ calc_mean_BES_DOC [[1, 0], [0, 1]] [[0, 1], [1, 0]] = .ok 0
    ∧ calc_Network_DOC [[1, 0], [0, 1]] [[0, 1], [1, 0]] = .ok 1 := by
  refine ⟨?_, ?_, ?_⟩
  · intro hL cL T hne hlen hT cT _ _ hden
    rw [calc_mean_BES_DOC_eq hL cL T hne (le_of_eq hlen) hT cT, if_neg hden]
    rfl
  · rw [calc_mean_BES_DOC_eq [[1, 0], [0, 1]] [[0, 1], [1, 0]] 2
      (by simp) (by norm_num) (by norm_num) (by norm_num)]
    norm_num [listDenom, meanCounter, colSum, Finset.sum_range_succ]
  · rw [calc_Network_DOC_eq [[1, 0], [0, 1]] [[0, 1], [1, 0]] 2
      (by simp) (by norm_num) (by norm_num) (by norm_num)]
    norm_num [listDenom, netCounter, colSum, Finset.sum_range_succ]

/-- Witness for C3 at `hL = [[3,1]]`, `cL = [[1,1]]`, `T = 2`. -/
theorem C3_witness :
    calc_mean_BES_DOC [[3, 1]] [[1, 1]] = .ok
      ((2 * ∑ t in Finset.range 2,
          ∑ b in Finset.range ([[3, 1]] : List (List ℚ)).length,
            min ((([[3, 1]] : List (List ℚ)).getD b []).getD t 0)
              ((([[1, 1]] : List (List ℚ)).getD b []).getD t 0)) /
        ∑ t in Finset.range 2,
          (∑ b in Finset.range ([[3, 1]] : List (List ℚ)).length,
              (([[3, 1]] : List (List ℚ)).getD b []).getD t 0 +
            ∑ b in Finset.range ([[3, 1]] : List (List ℚ)).length,
              (([[1, 1]] : List (List ℚ)).getD b []).getD t 0)) :=
  C3_calc_mean_BES_DOC_formula.1 [[3, 1]] [[1, 1]] 2 (by simp) rfl
    (by norm_num) (by norm_num) (by norm_num) (by norm_num)
    (by norm_num [listDenom, colSum, Finset.sum_range_succ])

/-- Sum of pointwise minima is at most the minimum of the sums. -/
theorem sum_min_le (B : Nat) (f g : Nat → ℚ) :
    ∑ b in Finset.range B, min (f b) (g b) ≤
      min (∑ b in Finset.range B, f b) (∑ b in Finset.range B, g b) :=
  le_min (Finset.sum_le_sum fun _ _ => min_le_left _ _)
    (Finset.sum_le_sum fun _ _ => min_le_right _ _)

/-- When all pairwise comparisons agree in direction, the sum of pointwise
minima equals the minimum of the sums. -/
theorem sum_min_eq_of_agree (B : Nat) (f g : Nat → ℚ)
    (h : (∀ b, b < B → f b ≤ g b) ∨ (∀ b, b < B → g b ≤ f b)) :
    ∑ b in Finset.range B, min (f b) (g b) =
      min (∑ b in Finset.range B, f b) (∑ b in Finset.range B, g b) := by
  rcases h with h | h
  · rw [Finset.sum_congr rfl
        (fun b hb => min_eq_left (h b (Finset.mem_range.mp hb))),
      min_eq_left (Finset.sum_le_sum fun b hb => h b (Finset.mem_range.mp hb))]
  · rw [Finset.sum_congr rfl
        (fun b hb => min_eq_right (h b (Finset.mem_range.mp hb))),
      min_eq_right (Finset.sum_le_sum fun b hb => h b (Finset.mem_range.mp hb))]

/-- C4: for any valid multi-entity input with positive total demand, the
network DOC is at least the mean BES DOC, with equality when at every time
step all entities' heat-vs-cold comparisons agree in direction. -/
theorem C4_network_ge_mean (hL cL : List (List ℚ)) (T : Nat)
    (hne : hL ≠ []) (hlen : hL.length = cL.length)
    (hT : ∀ row ∈ hL, row.length = T) (cT : ∀ row ∈ cL, row.length = T)
    ( _hpos : ∀ row ∈ hL, ∀ x ∈ row, 0 ≤ x)
    ( _cpos : ∀ row ∈ cL, ∀ x ∈ row, 0 ≤ x)
    (hden : 0 < listDenom hL cL hL.length T) :
    ∃ qn qm, calc_Network_DOC hL cL = .ok qn ∧
      calc_mean_BES_DOC hL cL = .ok qm ∧ qm ≤ qn ∧
      ((∀ t, t < T →
          (∀ b, b < hL.length →
            (hL.getD b []).getD t 0 ≤ (cL.getD b []).getD t 0) ∨
          (∀ b, b < hL.length →
            (cL.getD b []).getD t 0 ≤ (hL.getD b []).getD t 0)) →
        qn = qm) := by
  have hdne : listDenom hL cL hL.length T ≠ 0 := ne_of_gt hden
  refine ⟨netCounter hL cL hL.length T / listDenom hL cL hL.length T,
    meanCounter hL cL hL.length T / listDenom hL cL hL.length T, ?_, ?_, ?_, ?_⟩
  · rw [calc_Network_DOC_eq hL cL T hne (le_of_eq hlen) hT cT, if_neg hdne]
  · rw [calc_mean_BES_DOC_eq hL cL T hne (le_of_eq hlen) hT cT, if_neg hdne]
  · apply div_le_div_of_nonneg_right ?_ hden.le
    unfold meanCounter netCounter
    have hle : ∑ t in Finset.range T,
        ∑ b in Finset.range hL.length,
          min ((hL.getD b []).getD t 0) ((cL.getD b []).getD t 0) ≤
        ∑ t in Finset.range T,
          min (colSum hL hL.length t) (colSum cL hL.length t) := by
      apply Finset.sum_le_sum
      intro t _
      exact sum_min_le hL.length _ _
    linarith
  · intro hagree
    have hnm : netCounter hL cL hL.length T = meanCounter hL cL hL.length T := by
      unfold netCounter meanCounter colSum
      congr 1
      apply Finset.sum_congr rfl
      intro t ht
      exact (sum_min_eq_of_agree hL.length _ _
        (hagree t (Finset.mem_range.mp ht))).symm
    rw [hnm]

/-- Witness for C4 at `hL = [[2,1]]`, `cL = [[1,1]]`, `T = 2`. -/
theorem C4_witness :
    ∃ qn qm, calc_Network_DOC [[2, 1]] [[1, 1]] = .ok qn ∧
      calc_mean_BES_DOC [[2, 1]] [[1, 1]] = .ok qm ∧ qm ≤ qn ∧
      ((∀ t, t < 2 →
          (∀ b, b < ([[2, 1]] : List (List ℚ)).length →
            (([[2, 1]] : List (List ℚ)).getD b []).getD t 0 ≤
              (([[1, 1]] : List (List ℚ)).getD b []).getD t 0) ∨
          (∀ b, b < ([[2, 1]] : List (List ℚ)).length →
            (([[1, 1]] : List (List ℚ)).getD b []).getD t 0 ≤
              (([[2, 1]] : List (List ℚ)).getD b []).getD t 0)) →
        qn = qm) :=
  C4_network_ge_mean [[2, 1]] [[1, 1]] 2 (by simp) rfl
    (by norm_num) (by norm_num) (by norm_num) (by norm_num)
    (by norm_num [listDenom, colSum, Finset.sum_range_succ])

/-- Fusing the shared-minimum subtraction into a single heat-side zip. -/
theorem zipWith_sub_min_left : ∀ xs ys : List ℚ,
    List.zipWith (fun a m => a - m) xs (List.zipWith min xs ys) =
      List.zipWith (fun a b => a - min a b) xs ys
  | [], [] => rfl
  | [], _ :: _ => rfl
  | _ :: _, [] => rfl
  | a :: xs, b :: ys =>
      congrArg (List.cons (a - min a b)) (zipWith_sub_min_left xs ys)

/-- Fusing the shared-minimum subtraction into a single cold-side zip. -/
theorem zipWith_sub_min_right : ∀ xs ys : List ℚ,
    List.zipWith (fun b m => b - m) ys (List.zipWith min xs ys) =
      List.zipWith (fun a b => b - min a b) xs ys
  | [], [] => rfl
  | [], _ :: _ => rfl
  | _ :: _, [] => rfl
  | a :: xs, b :: ys =>
      congrArg (List.cons (b - min a b)) (zipWith_sub_min_right xs ys)

/-- Zipping two parallel zips of the same pair of lists fuses into one zip. -/
theorem zipWith_pair_fuse (f g h : ℚ → ℚ → ℚ) : ∀ xs ys : List ℚ,
    List.zipWith f (List.zipWith g xs ys) (List.zipWith h xs ys) =
      List.zipWith (fun a b => f (g a b) (h a b)) xs ys
  | [], [] => rfl
  | [], _ :: _ => rfl
  | _ :: _, [] => rfl
  | a :: xs, b :: ys =>
      congrArg (List.cons (f (g a b) (h a b))) (zipWith_pair_fuse f g h xs ys)

/-- The heat residual series of the balance transform, in fused form. -/
theorem balance_transform_fst (xs ys : List ℚ) :
    (balance_transform xs ys).1 =
      List.zipWith (fun a b => a - min a b) xs ys :=
  zipWith_sub_min_left xs ys

/-- The cold residual series of the balance transform, in fused form. -/
theorem balance_transform_snd (xs ys : List ℚ) :
    (balance_transform xs ys).2 =
      List.zipWith (fun a b => b - min a b) xs ys :=
  zipWith_sub_min_right xs ys

/-- After removing the shared minimum, the residual pair has zero overlap. -/
theorem min_residual_zero (a b : ℚ) :
    min (a - min a b) (b - min a b) = 0 := by
  rcases le_total a b with h | h
  · rw [min_eq_left h, sub_self]
    exact min_eq_left (sub_nonneg.mpr h)
  · rw [min_eq_right h, sub_self]
    exact min_eq_right (sub_nonneg.mpr h)

/-- C8: on equal-length non-negative series, the balance transform yields
non-negative outputs with, at every time step, at least one of the two
exactly zero; applying the transform to its own output returns it
unchanged. -/
theorem C8_balance_transform (heat cool : List ℚ)
    (hlen : heat.length = cool.length)
    ( _hh : ∀ x ∈ heat, 0 ≤ x) ( _hc : ∀ x ∈ cool, 0 ≤ x) :
    (∀ x ∈ (balance_transform heat cool).1, 0 ≤ x) ∧
    (∀ x ∈ (balance_transform heat cool).2, 0 ≤ x) ∧
    (∀ k, k < heat.length →
      (balance_transform heat cool).1.getD k 0 = 0 ∨
      (balance_transform heat cool).2.getD k 0 = 0) ∧
    balance_transform (balance_transform heat cool).1
        (balance_transform heat cool).2 = balance_transform heat cool := by
  have hfst := balance_transform_fst heat cool
  have hsnd := balance_transform_snd heat cool
  refine ⟨?_, ?_, ?_, ?_⟩
  · intro x hx
    rw [hfst] at hx
    obtain ⟨k, hk, hkx⟩ := List.mem_iff_getElem.mp hx
    rw [← hkx, List.getElem_zipWith]
    exact sub_nonneg.mpr (min_le_left _ _)
  · intro x hx
    rw [hsnd] at hx
    obtain ⟨k, hk, hkx⟩ := List.mem_iff_getElem.mp hx
    rw [← hkx, List.getElem_zipWith]
    exact sub_nonneg.mpr (min_le_right _ _)
  · intro k hk
    have hkz1 : k < (List.zipWith (fun a b => a - min a b) heat cool).length := by
      rw [List.length_zipWith]
      exact lt_min hk (hlen ▸ hk)
    have hkz2 : k < (List.zipWith (fun a b => b - min a b) heat cool).length := by
      rw [List.length_zipWith]
      exact lt_min hk (hlen ▸ hk)
    rw [hfst, hsnd, List.getD_eq_getElem _ _ hkz1, List.getD_eq_getElem _ _ hkz2,
      List.getElem_zipWith, List.getElem_zipWith]
    rcases le_total (heat[k]) (cool[k]) with h | h
    · left
      rw [min_eq_left h, sub_self]
    · right
      rw [min_eq_right h, sub_self]
  · rw [hfst, hsnd]
    have hfun1 : (fun a b : ℚ =>
        (a - min a b) - min (a - min a b) (b - min a b)) =
        fun a b : ℚ => a - min a b := by
      funext a b
      rw [min_residual_zero, sub_zero]
    have hfun2 : (fun a b : ℚ =>
        (b - min a b) - min (a - min a b) (b - min a b)) =
        fun a b : ℚ => b - min a b := by
      funext a b
      rw [min_residual_zero, sub_zero]
    apply Prod.ext
    · rw [balance_transform_fst, zipWith_pair_fuse, hfun1, hfst]
    · rw [balance_transform_snd, zipWith_pair_fuse, hfun2, hsnd]

/-- Witness for C8 at `heat = [3,1]`, `cool = [2,5]`. -/
theorem C8_witness :
    (∀ x ∈ (balance_transform [3, 1] [2, 5]).1, 0 ≤ x) ∧
    (∀ x ∈ (balance_transform [3, 1] [2, 5]).2, 0 ≤ x) ∧
    (∀ k, k < ([3, 1] : List ℚ).length →
      (balance_transform [3, 1] [2, 5]).1.getD k 0 = 0 ∨
      (balance_transform [3, 1] [2, 5]).2.getD k 0 = 0) ∧
    balance_transform (balance_transform [3, 1] [2, 5]).1
        (balance_transform [3, 1] [2, 5]).2 = balance_transform [3, 1] [2, 5] :=
  C8_balance_transform [3, 1] [2, 5] rfl (by norm_num) (by norm_num)

/-- C9: joint scaling of both series by a positive scalar leaves `calc_DOC`
unchanged. -/
theorem C9_scale_invariance (heat cool : List ℚ) (c : ℚ)
    (hlen : heat.length = cool.length)
    ( _hh : ∀ x ∈ heat, 0 ≤ x) ( _hc : ∀ x ∈ cool, 0 ≤ x)
    (hcpos : 0 < c) (hden : 0 < docDenom heat cool) :
    calc_DOC (heat.map (fun x => c * x)) (cool.map (fun x => c * x)) =
      calc_DOC heat cool := by
  have hlen2 : (heat.map (fun x => c * x)).length ≤
      (cool.map (fun x => c * x)).length := by
    rw [List.length_map, List.length_map, hlen]
  have hgd : ∀ (l : List ℚ) (k : Nat), k < l.length →
      (l.map (fun x => c * x)).getD k 0 = c * l.getD k 0 := by
    intro l k hk
    have hk2 : k < (l.map (fun x => c * x)).length := by
      rw [List.length_map]; exact hk
    rw [List.getD_eq_getElem _ _ hk2, List.getD_eq_getElem _ _ hk,
      List.getElem_map]
  have hlenm : (heat.map (fun x => c * x)).length = heat.length :=
    List.length_map _ _
  have hDs : docDenom (heat.map (fun x => c * x)) (cool.map (fun x => c * x)) =
      c * docDenom heat cool := by
    unfold docDenom
    rw [hlenm, Finset.mul_sum]
    apply Finset.sum_congr rfl
    intro k hk
    have hk1 := Finset.mem_range.mp hk
    rw [hgd heat k hk1, hgd cool k (hlen ▸ hk1)]
    ring
  have hmin : ∀ k ∈ Finset.range heat.length,
      min ((heat.map (fun x => c * x)).getD k 0)
        ((cool.map (fun x => c * x)).getD k 0) =
        c * min (heat.getD k 0) (cool.getD k 0) := by
    intro k hk
    have hk1 := Finset.mem_range.mp hk
    rw [hgd heat k hk1, hgd cool k (hlen ▸ hk1)]
    rcases le_total (heat.getD k 0) (cool.getD k 0) with h | h
    · rw [min_eq_left h, min_eq_left (mul_le_mul_of_nonneg_left h hcpos.le)]
    · rw [min_eq_right h, min_eq_right (mul_le_mul_of_nonneg_left h hcpos.le)]
  have hCs : docCounter (heat.map (fun x => c * x))
      (cool.map (fun x => c * x)) = c * docCounter heat cool := by
    unfold docCounter
    rw [hlenm, Finset.sum_congr rfl hmin, ← Finset.mul_sum]
    ring
  rw [calc_DOC_eq _ _ hlen2, calc_DOC_eq heat cool (le_of_eq hlen), hCs, hDs,
    if_neg (mul_pos hcpos hden).ne', if_neg hden.ne',
    mul_div_mul_left _ _ hcpos.ne']

/-- Witness for C9 at `heat = [1,2]`, `cool = [2,2]`, `c = 3`. -/
theorem C9_witness :
    calc_DOC (([1, 2] : List ℚ).map (fun x => 3 * x))
      (([2, 2] : List ℚ).map (fun x => 3 * x)) = calc_DOC [1, 2] [2, 2] :=
  C9_scale_invariance [1, 2] [2, 2] 3 rfl (by norm_num) (by norm_num)
    (by norm_num) (by norm_num [docDenom, Finset.sum_range_succ])

/-- C10: `calc_DOC` iterates only over the indices of `heat_dem`: extra
trailing entries of `cool_dem` are ignored (the result equals the result on
the truncated `cool_dem`, and is a number whenever the total demand is
non-zero), while a shorter `cool_dem` makes the indexing fail. -/
theorem C10_heat_indices_only (heat cool : List ℚ)
    ( _hh : ∀ x ∈ heat, 0 ≤ x) ( _hc : ∀ x ∈ cool, 0 ≤ x) :
    (heat.length ≤ cool.length →
      calc_DOC heat cool = calc_DOC heat (cool.take heat.length) ∧
      (docDenom heat cool ≠ 0 → ∃ q, calc_DOC heat cool = .ok q)) ∧
    (cool.length < heat.length →
      calc_DOC heat cool = .error .indexError) := by
  constructor
  · intro hle
    have htlen : heat.length ≤ (cool.take heat.length).length := by
      rw [List.length_take]
      exact le_min le_rfl hle
    have hgd : ∀ k, k < heat.length →
        (cool.take heat.length).getD k 0 = cool.getD k 0 := by
      intro k hk
      have hk2 : k < (cool.take heat.length).length := lt_of_lt_of_le hk htlen
      have hk3 : k < cool.length := lt_of_lt_of_le hk hle
      rw [List.getD_eq_getElem _ _ hk2, List.getD_eq_getElem _ _ hk3,
        List.getElem_take]
    have hC : docCounter heat (cool.take heat.length) = docCounter heat cool := by
      unfold docCounter
      congr 1
      apply Finset.sum_congr rfl
      intro k hk
      rw [hgd k (Finset.mem_range.mp hk)]
    have hD : docDenom heat (cool.take heat.length) = docDenom heat cool := by
      unfold docDenom
      apply Finset.sum_congr rfl
      intro k hk
      rw [hgd k (Finset.mem_range.mp hk)]
    constructor
    · rw [calc_DOC_eq heat cool hle, calc_DOC_eq heat _ htlen, hC, hD]
    · intro hden
      rw [calc_DOC_eq heat cool hle, if_neg hden]
      exact ⟨_, rfl⟩
  · exact calc_DOC_indexError heat cool

/-- Witness for C10 at `heat = [1]`, `cool = [2,3]`. -/
theorem C10_witness :
    calc_DOC [1] [2, 3] =
      calc_DOC [1] (([2, 3] : List ℚ).take ([1] : List ℚ).length) ∧
    (docDenom [1] [2, 3] ≠ 0 → ∃ q, calc_DOC [1] [2, 3] = .ok q) :=
  (C10_heat_indices_only [1] [2, 3] (by norm_num) (by norm_num)).1 (by norm_num)

/-- C6 counterexample: with `heat` of length 3 and `cool` of length 4,
`calc_DOC` returns the number 1 instead of signalling any dimension
mismatch. -/
theorem C6_counterexample : calc_DOC [1, 1, 1] [1, 1, 1, 1] = .ok 1 := by
  rw [calc_DOC_eq [1, 1, 1] [1, 1, 1, 1] (by norm_num)]
  norm_num [docDenom, docCounter, Finset.sum_range_succ]

/-- C6 amended: `calc_DOC` performs no dimension check: whenever `cool_dem`
is at least as long as `heat_dem` and the total demand is non-zero it
returns a number (extra entries of `cool_dem` ignored); only a `cool_dem`
shorter than `heat_dem` makes the call fail, and then with an index error,
not a dimension-mismatch signal. -/
theorem C6_returns_number (heat cool : List ℚ)
    (hle : heat.length ≤ cool.length) (hden : docDenom heat cool ≠ 0) :
    ∃ q, calc_DOC heat cool = .ok q := by
  rw [calc_DOC_eq heat cool hle, if_neg hden]
  exact ⟨_, rfl⟩

/-- Witness for the amended C6 at `heat = [1,1,1]`, `cool = [1,1,1,1]`. -/
theorem C6_witness : ∃ q, calc_DOC [1, 1, 1] [1, 1, 1, 1] = .ok q :=
  C6_returns_number [1, 1, 1] [1, 1, 1, 1] (by norm_num)
    (by norm_num [docDenom, Finset.sum_range_succ])

/-- C7 counterexample: at total demand zero, `calc_DOC` hits the unchecked
division by zero (silent NaN in the float reference); it neither returns 0
by convention nor signals a dedicated degenerate-input error. -/
theorem C7_counterexample :
    calc_DOC [0] [0] = .error .divByZero ∧ calc_DOC [0] [0] ≠ .ok 0 := by
  have h : calc_DOC [0] [0] = .error .divByZero := by
    rw [calc_DOC_eq [0] [0] le_rfl,
      if_pos (by norm_num [docDenom, Finset.sum_range_succ])]
  exact ⟨h, by rw [h]; simp⟩

/-- C7 amended: no zero-demand policy exists in the code: whenever the
total-demand denominator is zero, each of the three DOC functions reaches
the final division unchecked and the division degenerates (silent NaN in
the float reference), uniformly for all three. -/
theorem C7_no_zero_demand_policy (heat cool : List ℚ)
    (hL cL : List (List ℚ)) (T : Nat)
    (hle : heat.length ≤ cool.length) (hden : docDenom heat cool = 0)
    (hne : hL ≠ []) (hlen : hL.length ≤ cL.length)
    (hT : ∀ row ∈ hL, row.length = T) (cT : ∀ row ∈ cL, row.length = T)
    (lden : listDenom hL cL hL.length T = 0) :
    calc_DOC heat cool = .error .divByZero ∧
    calc_mean_BES_DOC hL cL = .error .divByZero ∧
    calc_Network_DOC hL cL = .error .divByZero := by
  refine ⟨?_, ?_, ?_⟩
  · rw [calc_DOC_eq heat cool hle, if_pos hden]
  · rw [calc_mean_BES_DOC_eq hL cL T hne hlen hT cT, if_pos lden]
  · rw [calc_Network_DOC_eq hL cL T hne hlen hT cT, if_pos lden]

/-- Witness for the amended C7 at all-zero demands. -/
theorem C7_witness :
    calc_DOC [0] [0, 0] = .error .divByZero ∧
    calc_mean_BES_DOC [[0]] [[0]] = .error .divByZero ∧
    calc_Network_DOC [[0]] [[0]] = .error .divByZero :=
  C7_no_zero_demand_policy [0] [0, 0] [[0]] [[0]] 1 (by norm_num)
    (by norm_num [docDenom, Finset.sum_range_succ]) (by simp) (by norm_num)
    (by norm_num) (by norm_num)
    (by norm_num [listDenom, colSum, Finset.sum_range_succ])

end DOC
